import Mathlib

/-!
Verification of the dynamic-array component of the frankenstein repository.

The authoritative implementation is frank::DynamicArray in
src/include/container/dynamic_array.hpp, instantiated (as in the repository's
tests) at a trivially copyable, trivially destructible element type (int).
The state of the container is the pointer triad of the Impl struct
(first, last, capacity) together with the contents of the allocated block.

Modelling conventions:
- `alloc` models `first != nullptr`; `buf` models the slot contents of the
  block [first, capacity_end), so `buf.length` is `capacity()`; `size` models
  `last - first`.
- A slot holds `Option Int`: `none` means the slot was never written
  (indeterminate memory). For int, destruction is a no-op (the
  `is_trivially_destructible` branch of destroy_item/destroy_range), so a
  destroyed slot keeps its last written value; memcpy/memmove copy slot
  contents verbatim.
- Operations are partial: a FRANK_ASSERT failure (the macro, defined in
  src/include/macro/assert_msg.hpp style, aborts when its condition fails)
  and out-of-block memory writes (undefined behavior) are both modelled as
  `none`.
-/

namespace Frank

/-- Content of one slot of the allocated block; `none` is indeterminate. -/
abbrev Slot := Option Int

/-- State of frank::DynamicArray<int>: the Impl pointer triad plus the
contents of the allocated block. -/
structure DA where
  alloc : Bool
  buf   : List Slot
  size  : Nat
deriving Repr, DecidableEq

/-- Modelled from DynamicArray::capacity(): distance(first, capacity_end). -/
def capacity (d : DA) : Nat := d.buf.length

/-- The live region [first, last) of the block. -/
def live (d : DA) : List Slot := d.buf.take d.size

/-- The state invariant of claim C2: first <= last <= capacity_end, and a
null first forces last and capacity_end null (no slots, size zero). -/
def Inv (d : DA) : Prop :=
  d.size ≤ d.buf.length ∧ (d.alloc = false → d.buf = [] ∧ d.size = 0)

/-- Strengthened reachable-state invariant: additionally, the block is
allocated exactly when its capacity is nonzero (init_self requires sz != 0,
so every allocation has at least one slot). -/
def Good (d : DA) : Prop :=
  d.size ≤ d.buf.length ∧ (d.alloc = false ↔ d.buf.length = 0)

/-- Modelled from DynamicArray(): the default constructor, all three
pointers null. -/
def default_ctor : DA := ⟨false, [], 0⟩

/-- Modelled from Impl::is_null(): first == nullptr. -/
def is_null (d : DA) : Bool := !d.alloc

/-- Modelled from DynamicArray::is_empty(): first == last. -/
def is_empty (d : DA) : Bool := d.size == 0

/-- Modelled from DynamicArray::is_full(): last == capacity_end (also true
in the null state, where both are nullptr). -/
def is_full (d : DA) : Bool := d.size == d.buf.length

/-- Modelled from DynamicArray::calc_next_capacity():
is_empty() ? 1 : capacity() * 2. -/
def calc_next_capacity (d : DA) : Nat :=
  if is_empty d then 1 else capacity d * 2

/-- Modelled from DynamicArray::grow(sz): asserts sz > capacity(); allocates
a fresh block of sz slots (init_self, which asserts sz != 0 — implied);
if null, adopts it directly; otherwise memcpy-relocates the live elements
(move_range, trivially-copyable branch) and calls new_impl.advance(size()),
whose FRANK_ASSERT(n != 0) aborts when the array is allocated but empty. -/
def grow (sz : Nat) (d : DA) : Option DA :=
  if capacity d < sz then
    if is_null d then some ⟨true, List.replicate sz none, 0⟩
    else if d.size ≠ 0 then
      some ⟨true, d.buf.take d.size ++ List.replicate (sz - d.size) none, d.size⟩
    else none
  else none

/-- Modelled from DynamicArray::emplace_back(args...): grows by
calc_next_capacity() when full, then construct_item at last (whose
FRANK_ASSERT(is_valid_pointer(last)) requires last < capacity_end) and
advance(1). -/
def emplace_back (v : Int) (d : DA) : Option DA :=
  (if is_full d then grow (calc_next_capacity d) d else some d).bind fun d1 =>
    if d1.size < capacity d1 then
      some ⟨d1.alloc, d1.buf.set d1.size (some v), d1.size + 1⟩
    else none

/-- Modelled from DynamicArray::push_back(item): delegates to emplace_back. -/
def push_back (v : Int) (d : DA) : Option DA := emplace_back v d

/-- Sequence of emplace_back calls threaded through the Option monad. -/
def pushList (d : DA) : List Int → Option DA
  | [] => some d
  | v :: vs => (emplace_back v d).bind fun d1 => pushList d1 vs

/-- Appending a whole list to a default-constructed array. -/
def pushAll (vs : List Int) : Option DA := pushList default_ctor vs

/-- Modelled from DynamicArray::pop_back(): FRANK_ASSERT(!is_empty());
prev(1); destroy_item(last) — a no-op on the slot for a trivially
destructible type, with FRANK_ASSERT(is_valid_pointer(last)). -/
def pop_back (d : DA) : Option DA :=
  if d.size = 0 then none
  else if d.size - 1 < capacity d then some ⟨d.alloc, d.buf, d.size - 1⟩
  else none

/-- Modelled from DynamicArray::operator[](idx): unchecked read of slot
first[idx]; reading an unwritten or out-of-block slot yields `none`. -/
def opIndex (d : DA) (idx : Nat) : Slot := d.buf.getD idx none

/-- Modelled from DynamicArray::at(idx): is_idx_valid(idx) (idx < size())
selects between an engaged optional referencing first[idx] and nullopt. -/
def at_checked (d : DA) (idx : Nat) : Option Slot :=
  if idx < d.size then some (opIndex d idx) else none

/-- Modelled from DynamicArray::at(idx) as a const call: the method is
const-qualified and noexcept, so the array state it returns alongside the
result is the unchanged input state. -/
def at_call (d : DA) (idx : Nat) : Option Slot × DA := (at_checked d idx, d)

/-- Error taxonomy of the checked accessors (spec section 7). -/
inductive Err where
  | OutOfRange
deriving Repr, DecidableEq

/-- Modelled from core::DynamicArray::at(idx) (src/core/DynamicArray.hpp):
if (idx >= size()) throw std::out_of_range(...); return m_begin[idx]. -/
def core_at (d : DA) (idx : Nat) : Except Err Slot :=
  if d.size ≤ idx then Except.error Err.OutOfRange
  else Except.ok (opIndex d idx)

/-- Modelled from core::DynamicArray(DynamicArray&& other): the destination
takes over the source's three pointers verbatim and the source's pointers
are set to nullptr. Returns (destination, source after the move). -/
def core_move_ctor (d : DA) : DA × DA :=
  (⟨d.alloc, d.buf, d.size⟩, ⟨false, [], 0⟩)

/-- Modelled from Impl::move_range_right(a, b, 1) at a = first + (i + 1),
b = last, for a trivially copyable type: memmove of slots [i+1, size) one
slot up, i.e. slot j of the result holds old slot (j-1) for j in
[i+2, size+1) and is unchanged otherwise. -/
def shiftRightOne (buf : List Slot) (a b : Nat) : List Slot :=
  (List.range buf.length).map fun j =>
    if a + 1 ≤ j ∧ j < b + 1 then buf.getD (j - 1) none else buf.getD j none

/-- Modelled from Impl::move_range_left(a, b, 1) for a trivially copyable
type: memmove of slots [a, b) one slot down; slot j of the result holds old
slot (j+1) for j in [a-1, b-1) and is unchanged otherwise. -/
def shiftLeftOne (buf : List Slot) (a b : Nat) : List Slot :=
  (List.range buf.length).map fun j =>
    if a - 1 ≤ j ∧ j + 1 < b then buf.getD (j + 1) none else buf.getD j none

/-- Modelled from DynamicArray::emplace(idx, args...):
FRANK_ASSERT(is_idx_valid(idx)) requires idx < size();
move_range_right(first + idx + 1, last, 1) asserts is_valid_range, i.e.
idx + 1 <= capacity() and size() <= capacity(), and its memmove writes the
region [idx+2, size+1), which is out of the block (undefined behavior,
modelled as none) when that region is nonempty and extends past capacity;
then construct_item(first + idx) overwrites slot idx and advance(1) bumps
last — with no grow call anywhere. -/
def emplace (idx : Nat) (v : Int) (d : DA) : Option DA :=
  if idx < d.size then
    if idx + 1 ≤ capacity d ∧ d.size ≤ capacity d then
      if idx + 1 < d.size ∧ capacity d < d.size + 1 then none
      else some ⟨d.alloc, (shiftRightOne d.buf (idx + 1) d.size).set idx (some v), d.size + 1⟩
    else none
  else none

/-- Modelled from DynamicArray::insert(idx, item): delegates to emplace. -/
def insert (idx : Nat) (v : Int) (d : DA) : Option DA := emplace idx v d

/-- Modelled from the spec: the insert/emplace contract of section 4
(Mutation): requires the position to lie within [first, last]
(idx <= size()); grows first if at full capacity; shifts the tail segment
starting at idx up by one slot to open a gap; then constructs in place at
idx. Stated here for comparison with the source's emplace. -/
def emplace_spec (idx : Nat) (v : Int) (d : DA) : Option DA :=
  if idx ≤ d.size then
    (if is_full d then grow (calc_next_capacity d) d else some d).bind fun d1 =>
      some ⟨d1.alloc, (shiftRightOne d1.buf idx d1.size).set idx (some v), d1.size + 1⟩
  else none

/-- Modelled from DynamicArray::erase(idx): FRANK_ASSERT(is_idx_valid(idx));
the idx == size()-1 case delegates to pop_back; otherwise
destroy_item(first + idx) (slot unchanged for int, asserts idx within the
block), move_range_left(first + idx + 1, last, 1) (asserts is_valid_range),
prev(1). -/
def erase (idx : Nat) (d : DA) : Option DA :=
  if idx < d.size then
    if idx = d.size - 1 then pop_back d
    else
      if idx < capacity d ∧ idx + 1 ≤ capacity d ∧ d.size ≤ capacity d then
        some ⟨d.alloc, shiftLeftOne d.buf (idx + 1) d.size, d.size - 1⟩
      else none
  else none

/-- Modelled from DynamicArray::clear(): destroy_self() (destroy_range over
[first, last), asserting is_valid_range(first, last), slots unchanged for
int), then last = first. -/
def clear (d : DA) : Option DA :=
  if d.size ≤ capacity d then some ⟨d.alloc, d.buf, 0⟩ else none

/-- Modelled from DynamicArray::reserve(sz): FRANK_ASSERT(sz > size());
no-op when sz <= capacity(), else grow(sz). -/
def reserve (sz : Nat) (d : DA) : Option DA :=
  if d.size < sz then (if sz ≤ capacity d then some d else grow sz d)
  else none

/-- Modelled from DynamicArray::shrink(sz): FRANK_ASSERT(sz < capacity());
FRANK_ASSERT(sz >= size()); init_self(sz) on a fresh Impl (asserts sz != 0);
memcpy-relocates the live elements into it; swaps the new Impl in. The new
Impl's last pointer is never advanced (grow calls new_impl.advance(size()),
shrink does not), so the adopted block has last == first: size becomes 0. -/
def shrink (sz : Nat) (d : DA) : Option DA :=
  if sz < capacity d ∧ d.size ≤ sz ∧ sz ≠ 0 then
    some ⟨true, d.buf.take d.size ++ List.replicate (sz - d.size) none, 0⟩
  else none

/-- Modelled from DynamicArray::shrink_to_fit(): shrink(size()). -/
def shrink_to_fit (d : DA) : Option DA := shrink d.size d

/-- Modelled from the copy loop of DynamicArray::assign: copy_range of the
incoming values into slots [0, n). -/
def writeList (buf : List Slot) (vs : List Int) : List Slot :=
  (List.range buf.length).map fun j =>
    if j < vs.length then some (vs.getD j 0) else buf.getD j none

/-- Modelled from DynamicArray::assign(a, b): destroy_self() (asserting
is_valid_range(first, last)); grow(n) when n > capacity(); copy_range into
[first, first + n); then impl.advance(n) — which asserts n != 0 and adds n
to the existing last (it is never reset), so the final size is the old size
plus n. -/
def assign (vs : List Int) (d : DA) : Option DA :=
  if d.size ≤ capacity d then
    (if capacity d < vs.length then grow vs.length d else some d).bind fun d1 =>
      if vs.length ≠ 0 then some ⟨d1.alloc, writeList d1.buf vs, d1.size + vs.length⟩
      else none
  else none

/-- Modelled from DynamicArray(std::initializer_list il): a fresh Impl
followed by assign(il). -/
def init_list (vs : List Int) : Option DA := assign vs default_ctor

/-- Modelled from DynamicArray(size_type sz): a fresh Impl followed by
grow(sz). -/
def sized_ctor (sz : Nat) : Option DA := grow sz default_ctor

/-- Modelled from DynamicArray::front(): is_null() ? nullopt : an engaged
optional referencing *first — engagement depends only on is_null, never on
is_empty. -/
def front_engaged (d : DA) : Bool := !is_null d

/-- Modelled from DynamicArray::back(): is_null() ? nullopt : an engaged
optional referencing last[-1]. -/
def back_engaged (d : DA) : Bool := !is_null d

/-- Offset from first of the slot the engaged front() optional refers to. -/
def front_ref_offset (_ : DA) : Int := 0

/-- Offset from first of the slot the engaged back() optional refers to:
last[-1] sits at signed offset size - 1. -/
def back_ref_offset (d : DA) : Int := (d.size : Int) - 1

end Frank

namespace Frank

lemma take_succ_set {α : Type} (l : List α) (n : Nat) (a : α) (h : n < l.length) :
    (l.set n a).take (n + 1) = l.take n ++ [a] := by
  induction l generalizing n with
  | nil => simp at h
  | cons x xs ih =>
    cases n with
    | zero => simp
    | succ m =>
      have hm : m < xs.length := by simpa using h
      simp [List.set, List.take, ih m hm]

lemma good_default : Good default_ctor := by
  constructor <;> simp [default_ctor]

lemma take_append_of_length_eq {α : Type} (l1 l2 : List α) (n : Nat)
    (h : l1.length = n) : (l1 ++ l2).take n = l1 := by
  rw [← h]
  exact List.take_left _ _

lemma emplace_back_eq_of_not_full (v : Int) (d : DA) (h : d.size < d.buf.length) :
    emplace_back v d = some ⟨d.alloc, d.buf.set d.size (some v), d.size + 1⟩ := by
  have hf : is_full d = false := by
    simp only [is_full, beq_eq_false_iff_ne, ne_eq]
    omega
  simp [emplace_back, hf, capacity, h]

lemma emplace_back_eq_of_null (v : Int) (d : DA) (hnull : d.alloc = false)
    (hbuf : d.buf = []) (hsz : d.size = 0) :
    emplace_back v d = some ⟨true, [some v], 1⟩ := by
  simp [emplace_back, is_full, grow, calc_next_capacity, is_empty, is_null,
    capacity, hbuf, hsz, hnull, List.replicate]

lemma emplace_back_eq_of_full (v : Int) (d : DA) (halloc : d.alloc = true)
    (hpos : 0 < d.size) (hfull : d.size = d.buf.length) :
    emplace_back v d = some ⟨true,
      (d.buf.take d.size ++ List.replicate (d.buf.length * 2 - d.size) none).set
        d.size (some v),
      d.size + 1⟩ := by
  have hf : is_full d = true := by simp [is_full, hfull]
  have hcalc : calc_next_capacity d = capacity d * 2 := by
    have : is_empty d = false := by
      simp only [is_empty, beq_eq_false_iff_ne, ne_eq]
      omega
    simp [calc_next_capacity, this]
  have h1 : capacity d < capacity d * 2 := by
    simp only [capacity]; omega
  have h2 : is_null d = false := by simp [is_null, halloc]
  have h3 : ¬ d.size = 0 := by omega
  have hgrow : grow (capacity d * 2) d = some ⟨true,
      d.buf.take d.size ++ List.replicate (d.buf.length * 2 - d.size) none, d.size⟩ := by
    simp [grow, h2, h3, capacity]
    omega
  have hlenmid : (d.buf.take d.size ++
      List.replicate (d.buf.length * 2 - d.size) none).length = d.buf.length * 2 := by
    simp only [List.length_append, List.length_take, List.length_replicate]
    omega
  simp only [emplace_back, hf, if_pos]
  rw [hcalc, hgrow]
  simp only [Option.some_bind, capacity]
  rw [if_pos (by rw [hlenmid]; omega)]

/-- Behaviour of one append on a reachable state: it succeeds, appends the
value to the live region, and either keeps the capacity (when not full) or
replaces it by the requested calc_next_capacity (when full). -/
lemma emplace_back_ok (v : Int) (d : DA) (h : Good d) :
    ∃ d', emplace_back v d = some d' ∧ Good d' ∧ d'.size = d.size + 1 ∧
      live d' = live d ++ [some v] ∧
      capacity d' =
        if d.size = capacity d then (if d.size = 0 then 1 else capacity d * 2)
        else capacity d := by
  obtain ⟨hle, hiff⟩ := h
  by_cases hfull : d.size = d.buf.length
  · by_cases hnull : d.alloc = false
    · have hlen0 : d.buf.length = 0 := hiff.mp hnull
      have hbuf : d.buf = [] := List.length_eq_zero.mp hlen0
      have hsz : d.size = 0 := by omega
      refine ⟨⟨true, [some v], 1⟩, emplace_back_eq_of_null v d hnull hbuf hsz,
        ⟨by simp, by simp⟩, by simp [hsz], ?_, ?_⟩
      · simp [live, hbuf, hsz]
      · simp [capacity, hsz, hlen0, hfull]
    · have halloc : d.alloc = true := by
        cases hal : d.alloc with
        | false => exact absurd hal hnull
        | true => rfl
      have hlenpos : 0 < d.buf.length := by
        rcases Nat.eq_zero_or_pos d.buf.length with h0 | h0
        · exact absurd (hiff.mpr h0) hnull
        · exact h0
      have hszpos : 0 < d.size := by omega
      have htklen : (d.buf.take d.size).length = d.size := by
        simp only [List.length_take]
        omega
      have hmidlen : (d.buf.take d.size ++
          List.replicate (d.buf.length * 2 - d.size) none).length = d.buf.length * 2 := by
        simp only [List.length_append, List.length_take, List.length_replicate]
        omega
      refine ⟨_, emplace_back_eq_of_full v d halloc hszpos hfull, ⟨?_, ?_⟩, rfl, ?_, ?_⟩
      · simp only [List.length_set, hmidlen]
        omega
      · simp only [List.length_set, hmidlen]
        constructor
        · intro hq; exact absurd hq (by simp [halloc])
        · intro hq; omega
      · show ((d.buf.take d.size ++ List.replicate (d.buf.length * 2 - d.size) none).set
            d.size (some v)).take (d.size + 1) = d.buf.take d.size ++ [some v]
        rw [take_succ_set _ _ _ (by rw [hmidlen]; omega)]
        congr 1
        exact take_append_of_length_eq _ _ _ htklen
      · show (_ : List Slot).length = _
        simp only [List.length_set, hmidlen, capacity]
        rw [if_pos hfull, if_neg (by omega)]
  · have hlt : d.size < d.buf.length := by omega
    refine ⟨_, emplace_back_eq_of_not_full v d hlt, ⟨?_, ?_⟩, rfl, ?_, ?_⟩
    · simp only [List.length_set]
      omega
    · simpa only [List.length_set] using hiff
    · show (d.buf.set d.size (some v)).take (d.size + 1) = d.buf.take d.size ++ [some v]
      exact take_succ_set _ _ _ hlt
    · show (d.buf.set d.size (some v)).length = _
      simp only [List.length_set, capacity]
      rw [if_neg hfull]

lemma pushList_append (l l' : List Int) : ∀ d : DA,
    pushList d (l ++ l') = (pushList d l).bind fun d1 => pushList d1 l' := by
  induction l with
  | nil => intro d; simp [pushList]
  | cons v vs ih =>
    intro d
    simp only [List.cons_append, pushList, Option.bind_assoc]
    cases emplace_back v d with
    | none => simp
    | some d1 => simp [ih d1]

/-- Invariant carried through a whole sequence of appends: the run succeeds
and the live region grows by the appended values, in order. -/
lemma pushList_ok : ∀ (vs : List Int) (d : DA), Good d →
    ∃ d', pushList d vs = some d' ∧ Good d' ∧ d'.size = d.size + vs.length ∧
      live d' = live d ++ vs.map some := by
  intro vs
  induction vs with
  | nil => intro d h; exact ⟨d, rfl, h, by simp, by simp⟩
  | cons v vs ih =>
    intro d h
    obtain ⟨d1, he, hg, hs, hl, _⟩ := emplace_back_ok v d h
    obtain ⟨d', he', hg', hs', hl'⟩ := ih d1 hg
    refine ⟨d', by simp [pushList, he, he'], hg', by simp only [List.length_cons]; omega, ?_⟩
    rw [hl', hl]
    simp

/-- C1: for every sequence of values, appending them in order via
push_back/emplace_back onto a default-constructed DynamicArray succeeds,
afterwards size() equals the number of appended values and the unchecked
operator[] returns each value at its insertion index. -/
theorem c1_push_back_reads_in_order (vs : List Int) :
    ∃ d, pushAll vs = some d ∧ d.size = vs.length ∧
      ∀ i, i < vs.length → opIndex d i = some (vs.getD i 0) := by
  obtain ⟨d, he, hg, hs, hl⟩ := pushList_ok vs default_ctor good_default
  have hsz : d.size = vs.length := by simpa [default_ctor] using hs
  have hlive : live d = vs.map some := by simpa [live, default_ctor] using hl
  refine ⟨d, he, hsz, ?_⟩
  intro i hi
  have hib : i < d.buf.length := by
    have := hg.1
    omega
  have hll : i < (live d).length := by
    rw [hlive]
    simpa using hi
  have h1 : opIndex d i = d.buf.getD i none := rfl
  have h2 : d.buf.getD i none = d.buf[i] := List.getD_eq_getElem d.buf none hib
  have h3 : (live d)[i] = d.buf[i] := by
    simp [live]
  have h5 : vs.getD i 0 = vs[i] := List.getD_eq_getElem vs 0 hi
  rw [h1, h2, ← h3]
  simp only [hlive, List.getElem_map]
  rw [h5]

/-- C1 witness at the concrete input [3, 5, 7]. -/
theorem c1_witness :
    ∃ d, pushAll [3, 5, 7] = some d ∧ d.size = 3 ∧ opIndex d 1 = some 5 := by
  obtain ⟨d, h1, h2, h3⟩ := c1_push_back_reads_in_order [3, 5, 7]
  exact ⟨d, h1, by simpa using h2, by simpa using h3 1 (by decide)⟩

/-- Least power of two at least k. -/
def IsLeastPow2 (c k : Nat) : Prop :=
  (∃ j, c = 2 ^ j) ∧ k ≤ c ∧ ∀ c', (∃ j, c' = 2 ^ j) → k ≤ c' → c ≤ c'

lemma isLeastPow2_of (c k j : Nat) (hpow : c = 2 ^ j) (hk : k ≤ c)
    (hlt : c < 2 * k) : IsLeastPow2 c k := by
  refine ⟨⟨j, hpow⟩, hk, ?_⟩
  rintro c' ⟨i, rfl⟩ hk'
  by_contra hcon
  push_neg at hcon
  have hij : i < j := by
    rw [hpow] at hcon
    exact (Nat.pow_lt_pow_iff_right (by norm_num)).mp hcon
  have hle : 2 ^ i ≤ 2 ^ (j - 1) := Nat.pow_le_pow_right (by norm_num) (by omega)
  have h2 : 2 ^ j = 2 * 2 ^ (j - 1) := by
    conv_lhs => rw [show j = (j - 1) + 1 from by omega]
    rw [pow_succ]
    ring
  omega

/-- Capacity evolution along k appends from the default state: the capacity
stays a power of two in the interval [k, 2k). -/
lemma pushReplicate_cap : ∀ k : Nat, ∃ d,
    pushAll (List.replicate k 0) = some d ∧ Good d ∧ d.size = k ∧
      (k = 0 → capacity d = 0) ∧
      (1 ≤ k → ∃ j, capacity d = 2 ^ j ∧ k ≤ capacity d ∧ capacity d < 2 * k) := by
  intro k
  induction k with
  | zero =>
    exact ⟨default_ctor, rfl, good_default, rfl, fun _ => rfl, by omega⟩
  | succ k ih =>
    obtain ⟨d, he, hg, hs, h0, h1⟩ := ih
    obtain ⟨d', he', hg', hs', _, hc'⟩ := emplace_back_ok 0 d hg
    have hpush : pushAll (List.replicate (k + 1) 0) = some d' := by
      rw [List.replicate_succ']
      rw [pushAll, pushList_append]
      rw [show pushList default_ctor (List.replicate k 0) = some d from he]
      simp [pushList, he']
    refine ⟨d', hpush, hg', by omega, by omega, ?_⟩
    intro _
    rcases Nat.eq_zero_or_pos k with hk0 | hkpos
    · subst hk0
      have hcap0 : capacity d = 0 := h0 rfl
      have hsz0 : d.size = 0 := hs
      rw [hc', if_pos (by omega), if_pos hsz0]
      exact ⟨0, by norm_num, by norm_num, by norm_num⟩
    · obtain ⟨j, hpow, hk, hlt⟩ := h1 hkpos
      by_cases hfull : d.size = capacity d
      · have hcapk : capacity d = k := by omega
        rw [hc', if_pos hfull, if_neg (by omega)]
        refine ⟨j + 1, ?_, by omega, by omega⟩
        rw [pow_succ, ← hpow, hcapk]
      · have hklt : k < capacity d := by
          have := hg.1
          simp only [capacity] at *
          omega
        rw [hc', if_neg hfull]
        exact ⟨j, hpow, by omega, by omega⟩

/-- C6 counterexample: after zero appends from the default state the
capacity is 0, which is not a power of two, hence not the least power of
two that is at least 0 (that would be 1). -/
theorem c6_counterexample :
    pushAll (List.replicate 0 0) = some default_ctor ∧
    capacity default_ctor = 0 ∧ ¬ IsLeastPow2 (capacity default_ctor) 0 := by
  refine ⟨rfl, rfl, ?_⟩
  rintro ⟨⟨j, hj⟩, -, -⟩
  have : 0 < 2 ^ j := Nat.pos_pow_of_pos j (by norm_num)
  rw [show capacity default_ctor = 0 from rfl] at hj
  omega

/-- C6 (amended): whenever an append finds the array full, the requested
reallocation capacity is 1 if the array is empty and twice the current
capacity otherwise; consequently after k >= 1 appends from the default
state the capacity is the least power of two that is at least k (after 0
appends it is 0, not 1). -/
theorem c6_growth_policy_amended :
    (∀ (v : Int) (d : DA), Good d → d.size = capacity d →
      ∃ d', emplace_back v d = some d' ∧
        capacity d' = if d.size = 0 then 1 else capacity d * 2) ∧
    (∀ k, 1 ≤ k → ∃ d, pushAll (List.replicate k 0) = some d ∧
      IsLeastPow2 (capacity d) k) := by
  constructor
  · intro v d hgood hfull
    obtain ⟨d', he, _, _, _, hc⟩ := emplace_back_ok v d hgood
    exact ⟨d', he, by rwa [if_pos hfull] at hc⟩
  · intro k hk
    obtain ⟨d, he, _, _, _, h1⟩ := pushReplicate_cap k
    obtain ⟨j, hpow, hkc, hlt⟩ := h1 hk
    exact ⟨d, he, isLeastPow2_of _ _ j hpow hkc hlt⟩

/-- C6 witness: an append on the concrete full one-element array requests
capacity 2, and after 5 appends the capacity is the least power of two at
least 5 (namely 8). -/
theorem c6_witness :
    (∃ d', emplace_back 7 ⟨true, [some 1], 1⟩ = some d' ∧ capacity d' = 2) ∧
    (∃ d, pushAll (List.replicate 5 0) = some d ∧ IsLeastPow2 (capacity d) 5) := by
  constructor
  · obtain ⟨d', h1, h2⟩ := c6_growth_policy_amended.1 7 ⟨true, [some 1], 1⟩
      (by constructor <;> simp) rfl
    exact ⟨d', h1, by simpa [capacity] using h2⟩
  · exact c6_growth_policy_amended.2 5 (by decide)

/-- C2 (evaluation at the failing input): the state reached by
emplace_back(1) from the default constructor is full with capacity 1;
emplace(0, 99) on it passes its own FRANK_ASSERT (0 < size()), performs an
empty shift and a construct, and advances last past capacity_end — the
resulting state has size() == 2 > capacity() == 1, violating the
first <= last <= capacity_end invariant. -/
theorem c2_emplace_breaks_invariant :
    pushAll [1] = some ⟨true, [some 1], 1⟩ ∧
    emplace 0 99 ⟨true, [some 1], 1⟩ = some ⟨true, [some 99], 2⟩ ∧
    ¬ Inv (⟨true, [some 99], 2⟩ : DA) := by
  refine ⟨by decide, by decide, ?_⟩
  rintro ⟨hle, -⟩
  simp at hle

/-- C3 (evaluation at the failing input): on the array {1,2,3,4,5}
(capacity 8), the spec's emplace at index 1 yields {1,9,2,3,4,5}, but the
source's emplace shifts from idx+1 instead of idx and never grows: it
yields {1,9,3,3,4,5} (the old element 2 is overwritten, 3 is duplicated),
and it rejects idx == size(), which the spec allows. -/
theorem c3_emplace_eval :
    (pushAll [1, 2, 3, 4, 5]).map live = some ([1, 2, 3, 4, 5].map some) ∧
    ((pushAll [1, 2, 3, 4, 5]).bind (emplace_spec 1 9)).map live =
      some ([1, 9, 2, 3, 4, 5].map some) ∧
    ((pushAll [1, 2, 3, 4, 5]).bind (emplace 1 9)).map live =
      some ([1, 9, 3, 3, 4, 5].map some) ∧
    (pushAll [1, 2, 3, 4, 5]).bind (emplace 5 9) = none := by
  decide

/-- C4 (evaluation at the failing input): DynamicArray{1,2,3,4,5,6} has
size 6, capacity 6; two pop_back calls leave size 4 and contents
{1,2,3,4} as the claim says; but shrink_to_fit() then yields capacity 4
with size 0 — shrink never advances the new block's last pointer, so the
relocated elements are not live. -/
theorem c4_shrink_to_fit_eval :
    (init_list [1, 2, 3, 4, 5, 6]).map (fun d => (d.size, capacity d, live d)) =
      some (6, 6, [1, 2, 3, 4, 5, 6].map some) ∧
    (((init_list [1, 2, 3, 4, 5, 6]).bind pop_back).bind pop_back).map
        (fun d => (d.size, capacity d, live d)) =
      some (4, 6, [1, 2, 3, 4].map some) ∧
    ((((init_list [1, 2, 3, 4, 5, 6]).bind pop_back).bind pop_back).bind
        shrink_to_fit).map (fun d => (d.size, capacity d)) =
      some (0, 4) := by
  decide

/-- C5: the checked accessor at(idx) on an index at or past size() yields
nullopt (frank) or the OutOfRange error (core), and the const call leaves
the array state unchanged. -/
theorem c5_at_out_of_range (d : DA) (idx : Nat) (h : d.size ≤ idx) :
    at_checked d idx = none ∧
    core_at d idx = Except.error Err.OutOfRange ∧
    at_call d idx = (none, d) := by
  have hnot : ¬ idx < d.size := by omega
  refine ⟨by simp [at_checked, hnot], by simp [core_at, h], ?_⟩
  simp [at_call, at_checked, hnot]

/-- C5 witness at a concrete one-element array and index 5. -/
theorem c5_witness :
    at_checked ⟨true, [some 1], 1⟩ 5 = none ∧
    core_at ⟨true, [some 1], 1⟩ 5 = Except.error Err.OutOfRange ∧
    at_call ⟨true, [some 1], 1⟩ 5 = (none, ⟨true, [some 1], 1⟩) :=
  c5_at_out_of_range ⟨true, [some 1], 1⟩ 5 (by decide)

/-- C7: move construction transfers the source's pointer triad verbatim to
the destination (same size, capacity and block contents, hence the same
elements in the same order) and leaves the source with size 0 and
capacity 0. -/
theorem c7_move_ctor (d : DA) :
    (core_move_ctor d).1 = d ∧
    live (core_move_ctor d).1 = live d ∧
    (core_move_ctor d).1.size = d.size ∧
    capacity (core_move_ctor d).1 = capacity d ∧
    (core_move_ctor d).2.size = 0 ∧
    capacity (core_move_ctor d).2 = 0 :=
  ⟨rfl, rfl, rfl, rfl, rfl, rfl⟩

/-- C8 (evaluation at the failing input): on {1,2,3,4}, the element at
index 1 is 2; erase(1) gives live contents {1,3,4}; insert(1, 2) then
gives {1,2,4,4}, not the original {1,2,3,4} — emplace overwrites the slot
at the insert position instead of shifting it. At the last valid position
the pair fails outright: after erase(3), insert(3, 4) trips the
idx < size() assertion. -/
theorem c8_erase_insert_eval :
    (pushAll [1, 2, 3, 4]).map (fun d => (live d, opIndex d 1)) =
      some ([1, 2, 3, 4].map some, some 2) ∧
    (((pushAll [1, 2, 3, 4]).bind (erase 1)).bind (insert 1 2)).map live =
      some ([1, 2, 4, 4].map some) ∧
    ((pushAll [1, 2, 3, 4]).bind (erase 3)).bind (insert 3 4) = none := by
  decide

/-- C9: clear() succeeds on any state satisfying the invariant, resets the
size to 0 and leaves the block (hence the capacity) and the allocation
flag untouched. -/
theorem c9_clear_keeps_capacity (d : DA) (h : Inv d) :
    ∃ d', clear d = some d' ∧ d'.size = 0 ∧ capacity d' = capacity d ∧
      d'.alloc = d.alloc ∧ d'.buf = d.buf :=
  ⟨⟨d.alloc, d.buf, 0⟩, by simp [clear, capacity, h.1], rfl, rfl, rfl, rfl⟩

/-- C9 witness at a concrete one-element array. -/
theorem c9_witness :
    ∃ d', clear ⟨true, [some 1], 1⟩ = some d' ∧ d'.size = 0 ∧
      capacity d' = capacity ⟨true, [some 1], 1⟩ ∧
      d'.alloc = (⟨true, [some 1], 1⟩ : DA).alloc ∧
      d'.buf = (⟨true, [some 1], 1⟩ : DA).buf :=
  c9_clear_keeps_capacity ⟨true, [some 1], 1⟩ ⟨by decide, fun h => by simp at h⟩

/-- C10: front() and back() are engaged exactly when the array is not in
the unallocated state, independently of emptiness; on an allocated empty
array (capacity > 0, size == 0) both are engaged, front referring to slot
0 — not a live slot, as no slot is live — and back referring to offset
-1 (last[-1] with last == first); such a state is reachable via the sized
constructor. -/
theorem c10_front_back_null_not_empty :
    (∀ d : DA, (front_engaged d = true ↔ is_null d = false) ∧
      (back_engaged d = true ↔ is_null d = false)) ∧
    (∀ d : DA, Inv d → 0 < capacity d → d.size = 0 →
      front_engaged d = true ∧ back_engaged d = true ∧
      front_ref_offset d = 0 ∧ back_ref_offset d = -1 ∧ ¬ 0 < d.size) ∧
    sized_ctor 4 = some ⟨true, List.replicate 4 none, 0⟩ := by
  refine ⟨fun d => ⟨by simp [front_engaged], by simp [back_engaged]⟩, ?_, by decide⟩
  intro d hinv hcap hsz
  have halloc : d.alloc = true := by
    cases hal : d.alloc with
    | false =>
      obtain ⟨hbuf, -⟩ := hinv.2 hal
      rw [show capacity d = d.buf.length from rfl, hbuf] at hcap
      simp at hcap
    | true => rfl
  refine ⟨by simp [front_engaged, is_null, halloc],
    by simp [back_engaged, is_null, halloc], rfl, ?_, by omega⟩
  simp [back_ref_offset, hsz]

/-- C10 witness at the concrete allocated-but-empty array of capacity 4. -/
theorem c10_witness :
    front_engaged ⟨true, List.replicate 4 none, 0⟩ = true ∧
    back_engaged ⟨true, List.replicate 4 none, 0⟩ = true ∧
    front_ref_offset ⟨true, List.replicate 4 none, 0⟩ = 0 ∧
    back_ref_offset ⟨true, List.replicate 4 none, 0⟩ = -1 ∧
    ¬ 0 < (⟨true, List.replicate 4 none, 0⟩ : DA).size :=
  c10_front_back_null_not_empty.2.1 ⟨true, List.replicate 4 none, 0⟩
    ⟨by decide, fun h => by simp at h⟩ (by decide) (by decide)

end Frank
